import Mathlib

/-!
# Document Q&A Pipeline — verification of the spec'd core

The document-intelligence core (`text_processor.py`, `vector_store.py`,
`qa_engine.py`, `document_store.py`) is specified in the repository's design
spec; this file gives a shallow embedding of that core (chunker, embedding
provider, session document store, answer composer) and proves the spec's
claims about it.  The Python sources of the core are not present in the
repository snapshot (only their documentation and reviews are), so every
component here is modelled from the spec, as flagged in each doc comment.
-/

namespace DocQA

/-! ## Definitions -/

/-! ### Text Chunker (§4.1) -/

/-- Modelled from the spec: the chunking loop of `text_processor.py` (absent
from the snapshot).  Splits a character sequence into slices of at most
`size` characters, consecutive slices starting `step` characters apart, so
consecutive chunks share `size - step` characters of overlap.  (The spec
leaves the unit as "characters or tokens — implementation's choice"; we use
characters.  Boundary snapping is a "where possible" preference orthogonal
to the coverage invariant and is not modelled.) -/
def chunkAux (size step : Nat) (s : List Char) : List (List Char) :=
  if h : s.length ≤ size ∨ step = 0 then [s]
  else s.take size :: chunkAux size step (s.drop step)
termination_by s.length
decreasing_by
  simp only [not_or] at h
  have h1 : size < s.length := Nat.lt_of_not_le h.1
  have h2 : 0 < step := Nat.pos_of_ne_zero h.2
  simpa [List.length_drop] using Nat.sub_lt (Nat.lt_of_le_of_lt (Nat.zero_le _) h1) h2

/-- Modelled from the spec: `chunk(text, targetSize, overlap)` of §4.1.
Degenerate (empty) input yields an empty chunk sequence, not an error. -/
def chunk (targetSize overlap : Nat) (text : List Char) : List (List Char) :=
  if text.isEmpty then [] else chunkAux targetSize (targetSize - overlap) text

/-- Modelled from the spec: "concatenating chunk texts (minus overlapping
tail/head)": the first chunk is kept whole and each later chunk drops its
`overlap`-character head, the region it shares with its predecessor. -/
def reassemble (overlap : Nat) : List (List Char) → List Char
  | [] => []
  | c :: rest => c ++ (rest.map (fun d => d.drop overlap)).flatten

/-! ### Embedding Provider (§4.2) -/

/-- Modelled from the spec: the batch splitter of the Embedding Provider
(`vector_store.py`, absent from the snapshot): splits an input sequence
into consecutive batches of at most `n` elements, preserving order. -/
def batched (n : Nat) (xs : List α) : List (List α) :=
  if he : xs.isEmpty then []
  else if hn : n = 0 then [xs]
  else xs.take n :: batched n (xs.drop n)
termination_by xs.length
decreasing_by
  simp only [List.isEmpty_iff] at he
  have h0 : 0 < xs.length := List.length_pos.mpr he
  have h2 : 0 < n := Nat.pos_of_ne_zero hn
  simpa [List.length_drop] using Nat.sub_lt h0 h2

/-- Modelled from the spec: the primary path of `embed(texts)` (§4.2): the
remote embedding API maps each text of a batch to one vector; batches are
bounded by `maxBatch`, embedded independently and concatenated in order. -/
def embedBatched (api : String → List ℚ) (maxBatch : Nat)
    (texts : List String) : List (List ℚ) :=
  ((batched maxBatch texts).map (fun b => b.map api)).flatten

/-- Modelled from the spec: the dimension-preserving fallback of §4.2 — a
deterministic zero-vector of the provider's fixed dimension. -/
def zeroVector (dim : Nat) : List ℚ := List.replicate dim 0

/-- Modelled from the spec: §4.2 failure semantics — a batch whose remote
call fails (after its retry) falls back for that batch only, marked by the
per-batch predicate `apiOk`; other batches keep their remote vectors. -/
def embedWithFallback (api : String → List ℚ) (dim : Nat)
    (apiOk : List String → Bool) (maxBatch : Nat)
    (texts : List String) : List (List ℚ) :=
  ((batched maxBatch texts).map (fun b =>
    if apiOk b then b.map api else b.map (fun _ => zeroVector dim))).flatten

/-! ### Data model (§3) -/

/-- Modelled from the spec: a `Chunk` of §3 — index, slice text, best-effort
provenance, and the vector set once embedded (`none` until embedded). -/
structure Chunk where
  chunkIndex : Nat
  text : String
  sourceRef : Option String
  vector : Option (List ℚ)
deriving Repr, DecidableEq

/-- Modelled from the spec: a `ConversationTurn` of §3. -/
structure ConversationTurn where
  question : String
  answer : String
  sources : List (Option String)
  usedFallback : Bool
deriving Repr, DecidableEq

/-- Modelled from the spec: a `Document` of §3, owning its chunks and its
bounded conversation history, with wall-clock creation and expiry times. -/
structure Document where
  id : String
  rawText : String
  chunks : List Chunk
  history : List ConversationTurn
  createdAt : Nat
  expiresAt : Nat
deriving Repr, DecidableEq

/-- Modelled from the spec: the configurable knobs the claims mention —
top-K retrieval width (§4.5 step 1) and the bounded history window (§3). -/
structure QAConfig where
  topK : Nat
  maxHist : Nat
deriving Repr, DecidableEq

/-! ### Retrieval (§4.3–§4.4) -/

/-- Insertion step of the descending-score sort used by retrieval. -/
def insertBy (le : α → α → Bool) (a : α) : List α → List α
  | [] => [a]
  | b :: rest => if le a b then a :: b :: rest else b :: insertBy le a rest

/-- Insertion sort used to order retrieval results by descending score. -/
def sortBy (le : α → α → Bool) : List α → List α
  | [] => []
  | a :: rest => insertBy le a (sortBy le rest)

/-- Dot-product similarity over vectors (the claims under proof do not
depend on the choice of similarity metric). -/
def dot (a b : List ℚ) : ℚ := ((a.zip b).map (fun p => p.1 * p.2)).sum

/-- Similarity of a chunk against a query vector; unembedded chunks are
filtered out before this is used. -/
def simScore (qv : List ℚ) (c : Chunk) : ℚ :=
  match c.vector with
  | none => 0
  | some v => dot qv v

/-- Modelled from the spec: the Vector Index / Retriever path (§4.3–§4.4):
with no question embedding available, vector retrieval yields nothing; with
one, the embedded chunks are ranked by descending similarity and the top
`k` returned (`k` clamped to what exists). -/
def vectorRetrieve (k : Nat) (qv : Option (List ℚ)) (cs : List Chunk) : List Chunk :=
  match qv with
  | none => []
  | some v =>
      (sortBy (fun a b => decide (simScore v b ≤ simScore v a))
        (cs.filter (fun c => c.vector.isSome))).take k

/-- Whitespace word splitter (accumulator holds the current word reversed). -/
def splitWordsAux (cur : List Char) : List Char → List (List Char)
  | [] => if cur.isEmpty then [] else [cur.reverse]
  | c :: rest =>
      if c = ' ' then
        if cur.isEmpty then splitWordsAux [] rest
        else cur.reverse :: splitWordsAux [] rest
      else splitWordsAux (c :: cur) rest

/-- The whitespace-split word list of a string, used for keyword overlap. -/
def wordsOf (s : String) : List (List Char) := splitWordsAux [] s.data

/-- Modelled from the spec: the lexical-fallback score of §4.5 step 2 —
keyword overlap with the question, scored by term frequency: the number of
words of the chunk's raw text that also occur in the question. -/
def lexScore (question : String) (c : Chunk) : Nat :=
  ((wordsOf c.text).filter (fun w => (wordsOf question).contains w)).length

/-- Modelled from the spec: the lexical fallback retrieval of §4.5 step 2 —
rank raw chunk text by keyword overlap with the question and keep the top
`k` matches. -/
def lexicalTop (k : Nat) (question : String) (cs : List Chunk) : List Chunk :=
  (sortBy (fun a b => decide (lexScore question b ≤ lexScore question a)) cs).take k

/-! ### Answer Composer (§4.5) -/

/-- Modelled from the spec: the tagged grounding variants §9 prescribes
(`Grounded | LexicalFallback | NoGrounding`). -/
inductive GroundingSel where
  | vector (cs : List Chunk)
  | lexical (cs : List Chunk)
  | noGrounding
deriving Repr, DecidableEq

/-- The chunks carried by a grounding selection. -/
def GroundingSel.chunks : GroundingSel → List Chunk
  | .vector cs => cs
  | .lexical cs => cs
  | .noGrounding => []

/-- Modelled from the spec: §4.5 step 2 — vector retrieval first; on zero
results attempt the lexical fallback over raw chunk text; only when no
chunks exist at all is there no grounding. -/
def selectGrounding (cfg : QAConfig) (doc : Document) (question : String)
    (embedQ : Option (String → List ℚ)) : GroundingSel :=
  match vectorRetrieve cfg.topK (embedQ.map (fun f => f question)) doc.chunks with
  | c :: cs => .vector (c :: cs)
  | [] =>
      match lexicalTop cfg.topK question doc.chunks with
      | c :: cs => .lexical (c :: cs)
      | [] => .noGrounding

/-- Modelled from the spec: the terminal answer of §4.5 step 2 when no
chunks exist at all. -/
def cannotFindMsg : String := "I cannot find this information in the document."

/-- Modelled from the spec: the grounding prompt of §4.5 step 3 — system
instruction, retrieved chunk texts with their refs, bounded history, and
the question. -/
def buildPrompt (cs : List Chunk) (history : List ConversationTurn)
    (question : String) : String :=
  "Answer using only the provided context. "
    ++ String.intercalate " " (cs.map (fun c => c.text))
    ++ " " ++ String.intercalate " " (history.map (fun t => t.question ++ " " ++ t.answer))
    ++ " " ++ question

/-- Modelled from the spec: the Answer Composer of §4.5 (`qa_engine.py`,
absent from the snapshot).  `genAvailable` is the generation provider's
availability; `gen` is the (external, free-form) generation model.  On
success sources are the `sourceRef`s of the chunks passed into the prompt;
on generation unavailability the answer is the extractive fallback — the
most relevant chunk's text, flagged `usedFallback`. -/
def composeTurn (cfg : QAConfig) (doc : Document) (question : String)
    (embedQ : Option (String → List ℚ)) (genAvailable : Bool)
    (gen : String → String) : ConversationTurn :=
  match selectGrounding cfg doc question embedQ with
  | .noGrounding => ⟨question, cannotFindMsg, [], false⟩
  | .vector cs | .lexical cs =>
      match cs with
      | [] => ⟨question, cannotFindMsg, [], false⟩
      | top :: rest =>
          if genAvailable then
            ⟨question, gen (buildPrompt (top :: rest) doc.history question),
              (top :: rest).map (fun c => c.sourceRef), false⟩
          else
            ⟨question, top.text, (top :: rest).map (fun c => c.sourceRef), true⟩

/-- Modelled from the spec: §4.5 step 6 — append to the bounded history
window, evicting the oldest turn when the window is full. -/
def appendBounded (maxN : Nat) (h : List ConversationTurn)
    (t : ConversationTurn) : List ConversationTurn :=
  (h ++ [t]).drop ((h.length + 1) - maxN)

/-- Record a finished turn in the document's bounded history window; the
document itself (id, text, chunks) is untouched. -/
def Document.recordTurn (maxN : Nat) (doc : Document) (t : ConversationTurn) :
    Document :=
  { doc with history := appendBounded maxN doc.history t }

/-- A sequence of `answer` calls against one document, each recording its
turn in the bounded window. -/
def runQuestions (cfg : QAConfig) (doc : Document) (qs : List String)
    (embedQ : Option (String → List ℚ)) (genAvailable : Bool)
    (gen : String → String) : Document :=
  qs.foldl (fun d q => d.recordTurn cfg.maxHist (composeTurn cfg d q embedQ genAvailable gen)) doc

/-! ### Session Document Store (§4.6) -/

/-- Association-list lookup for the store's id-keyed document map. -/
def findDoc (id : String) : List (String × Document) → Option Document
  | [] => none
  | (k, d) :: rest => if k = id then some d else findDoc id rest

/-- Modelled from the spec: the Session Document Store of §4.6
(`document_store.py`, absent from the snapshot), newest entry first. -/
structure DocStore where
  docs : List (String × Document)
deriving Repr, DecidableEq

/-- Modelled from the spec: `sweepExpired` of §4.6 — a document is evicted
once `now > expiresAt`. -/
def DocStore.sweepExpired (st : DocStore) (now : Nat) : DocStore :=
  ⟨st.docs.filter (fun p => decide (now ≤ p.2.expiresAt))⟩

/-- Modelled from the spec: `get(id)` of §4.6 with the lazy check-and-evict
the spec requires on every call; returns the hit (if unexpired) and the
swept store. -/
def DocStore.get (st : DocStore) (id : String) (now : Nat) :
    Option Document × DocStore :=
  let st' := st.sweepExpired now
  (findDoc id st'.docs, st')

/-- Modelled from the spec: `put(document)` of §4.6 — check-and-evict, stamp
the TTL, replace any same-id entry, and bound the session at `maxDocs`
documents (oldest evicted first). -/
def DocStore.put (st : DocStore) (doc : Document) (now ttl maxDocs : Nat) :
    DocStore :=
  let st' := st.sweepExpired now
  let d' := { doc with createdAt := now, expiresAt := now + ttl }
  ⟨((doc.id, d') :: st'.docs.filter (fun p => decide (p.1 ≠ doc.id))).take maxDocs⟩

/-- Modelled from the spec: `remove(id)` of §4.6. -/
def DocStore.remove (st : DocStore) (id : String) : DocStore :=
  ⟨st.docs.filter (fun p => decide (p.1 ≠ id))⟩

/-- Replace the stored document at `id` (used to record a finished turn). -/
def DocStore.updateDoc (st : DocStore) (id : String) (d : Document) : DocStore :=
  ⟨st.docs.map (fun p => if p.1 = id then (p.1, d) else p)⟩

/-- Modelled from the spec: the caller-facing error taxonomy of §7 relevant
to `ask` — `NotFound` for an unknown id, `InputError` for rejected input,
and an answered `ConversationTurn` otherwise (a "cannot find" answer is an
answered turn, not an error). -/
inductive AskResult where
  | notFound
  | inputError
  | answered (turn : ConversationTurn)
deriving Repr, DecidableEq

/-- Modelled from the spec: the caller-facing `ask(documentId, question)` of
§6: look the document up (with eviction enforced), compose the grounded or
degraded answer, and record the turn in the bounded window. -/
def ask (cfg : QAConfig) (st : DocStore) (id question : String) (now : Nat)
    (embedQ : Option (String → List ℚ)) (genAvailable : Bool)
    (gen : String → String) : AskResult × DocStore :=
  match (st.get id now).fst with
  | none => (.notFound, (st.get id now).snd)
  | some doc =>
      let turn := composeTurn cfg doc question embedQ genAvailable gen
      (.answered turn, (st.get id now).snd.updateDoc id (doc.recordTurn cfg.maxHist turn))

/-! ### Sample data used by the concrete witnesses -/

/-- A sample embedded chunk. -/
def sampleChunk : Chunk :=
  ⟨0, "invoice total 500 due 2026", some "page 1", some [1, 0]⟩

/-- A second sample chunk, left unembedded. -/
def sampleChunk2 : Chunk :=
  ⟨1, "shipping terms net 30", some "page 2", none⟩

/-- A sample document holding the two sample chunks. -/
def sampleDoc : Document :=
  ⟨"doc1", "invoice total 500 due 2026 shipping terms net 30",
    [sampleChunk, sampleChunk2], [], 0, 0⟩

/-- A sample document with no chunks at all. -/
def emptyDoc : Document := ⟨"doc2", "", [], [], 0, 0⟩

/-- A sample configuration: top-5 retrieval, 10-turn history window. -/
def sampleCfg : QAConfig := ⟨5, 10⟩

/-- A sample store holding the sample document under its id. -/
def sampleStore : DocStore := ⟨[("doc1", sampleDoc)]⟩

/-! ## Lemmas and theorems -/

lemma chunkAux_ne_nil (size step : Nat) (s : List Char) :
    chunkAux size step s ≠ [] := by
  rw [chunkAux]
  split <;> simp

/-- Reassembling the chunks of `chunkAux` recovers the input. -/
lemma chunkAux_reassemble (size step : Nat) (hstep : 0 < step)
    (hov : step ≤ size) (s : List Char) :
    reassemble (size - step) (chunkAux size step s) = s := by
  induction s using chunkAux.induct size step with
  | case1 s h =>
      rw [chunkAux]
      simp only [dif_pos h, reassemble]
      simp
  | case2 s h ih =>
      simp only [not_or] at h
      have h1 : size < s.length := Nat.lt_of_not_le h.1
      rw [chunkAux]
      have hcond : ¬(s.length ≤ size ∨ step = 0) := by push_neg; exact ⟨h1, h.2⟩
      simp only [dif_neg hcond]
      rcases hrec : chunkAux size step (s.drop step) with _ | ⟨c, rest⟩
      · exact absurd hrec (chunkAux_ne_nil size step (s.drop step))
      · have hre : reassemble (size - step) (c :: rest) = s.drop step := by
          rw [← hrec]; exact ih
        simp only [reassemble] at hre ⊢
        simp only [List.map_cons, List.flatten_cons]
        have hclen : size - step ≤ c.length := by
          rw [chunkAux] at hrec
          by_cases hb : (s.drop step).length ≤ size ∨ step = 0
          · rw [dif_pos hb] at hrec
            injection hrec with hc hrest
            subst hc
            simp only [List.length_drop]
            omega
          · rw [dif_neg hb] at hrec
            injection hrec with hc hrest
            subst hc
            push_neg at hb
            simp only [List.length_take, List.length_drop]
            omega
        calc s.take size ++ (c.drop (size - step) ++ (rest.map (fun d => d.drop (size - step))).flatten)
            = s.take size ++ (c ++ (rest.map (fun d => d.drop (size - step))).flatten).drop (size - step) := by
              rw [List.drop_append_of_le_length hclen]
          _ = s.take size ++ (s.drop step).drop (size - step) := by rw [hre]
          _ = s.take size ++ s.drop size := by
              rw [List.drop_drop]
              rw [Nat.add_sub_cancel' hov]
          _ = s := List.take_append_drop size s

lemma batched_flatten (n : Nat) (xs : List α) : (batched n xs).flatten = xs := by
  induction xs using batched.induct n with
  | case1 xs he =>
      rw [batched, dif_pos he]
      simp [List.isEmpty_iff.mp he]
  | case2 xs he hn =>
      rw [batched, dif_neg he, dif_pos hn]
      simp
  | case3 xs he hn ih =>
      rw [batched, dif_neg he, dif_neg hn]
      simp [ih]

lemma batched_le (n : Nat) (hn : 0 < n) (xs : List α) :
    ∀ b ∈ batched n xs, b.length ≤ n := by
  induction xs using batched.induct n with
  | case1 xs he =>
      rw [batched, dif_pos he]
      simp
  | case2 xs he hn2 =>
      omega
  | case3 xs he hn2 ih =>
      rw [batched, dif_neg he, dif_neg hn2]
      intro b hb
      rcases hb with _ | ⟨_, hb⟩
      · simp
      · exact ih _ hb

lemma length_insertBy (le : α → α → Bool) (a : α) (l : List α) :
    (insertBy le a l).length = l.length + 1 := by
  induction l with
  | nil => rfl
  | cons b rest ih =>
      rw [insertBy]
      split
      · simp
      · simp [ih]

lemma length_sortBy (le : α → α → Bool) (l : List α) :
    (sortBy le l).length = l.length := by
  induction l with
  | nil => rfl
  | cons a rest ih =>
      rw [sortBy]
      simp [length_insertBy, ih]

lemma sortBy_head_max (le : α → α → Bool)
    (htot : ∀ a b, le a b = true ∨ le b a = true)
    (htrans : ∀ a b c, le a b = true → le b c = true → le a c = true) :
    ∀ (l : List α) (h : α) (t : List α), sortBy le l = h :: t →
      ∀ x ∈ l, le h x = true := by
  have hrefl : ∀ a, le a a = true := by
    intro a
    rcases htot a a with h | h <;> exact h
  intro l
  induction l with
  | nil =>
      intro h t hrep
      exact absurd hrep (by simp [sortBy])
  | cons a rest ih =>
      intro h t hrep x hx
      rw [sortBy] at hrep
      rcases hsr : sortBy le rest with _ | ⟨h', t'⟩
      · rw [hsr] at hrep
        have hrest : rest = [] := by
          have hl := length_sortBy le rest
          rw [hsr] at hl
          exact List.length_eq_zero.mp hl.symm
        rw [insertBy] at hrep
        injection hrep with h1 h2
        subst h1
        rcases List.mem_cons.mp hx with rfl | hx
        · exact hrefl x
        · rw [hrest] at hx
          exact absurd hx (List.not_mem_nil x)
      · rw [hsr] at hrep
        have ihh : ∀ y ∈ rest, le h' y = true := ih h' t' hsr
        rw [insertBy] at hrep
        split at hrep
        · next hle =>
            injection hrep with h1 h2
            subst h1
            rcases List.mem_cons.mp hx with hxa | hx
            · rw [hxa]; exact hrefl a
            · exact htrans a h' x hle (ihh x hx)
        · next hle =>
            injection hrep with h1 h2
            subst h1
            rcases List.mem_cons.mp hx with hxa | hx
            · rcases htot a h' with hh | hh
              · exact absurd hh hle
              · rw [hxa]; exact hh
            · exact ihh x hx

lemma lexicalTop_ne_nil (k : Nat) (q : String) (cs : List Chunk)
    (hcs : cs ≠ []) (hk : 0 < k) : lexicalTop k q cs ≠ [] := by
  unfold lexicalTop
  intro h
  have hl := congrArg List.length h
  simp only [List.length_take, length_sortBy, List.length_nil] at hl
  have hpos : 0 < cs.length := List.length_pos.mpr hcs
  omega

lemma findDoc_filter_le (now : Nat) (id : String) :
    ∀ (l : List (String × Document)) (d : Document),
      findDoc id (l.filter (fun p => decide (now ≤ p.2.expiresAt))) = some d →
        now ≤ d.expiresAt := by
  intro l
  induction l with
  | nil =>
      intro d h
      simp [findDoc] at h
  | cons p rest ih =>
      intro d h
      by_cases hp : now ≤ p.2.expiresAt
      · rw [List.filter_cons_of_pos (by simpa using hp)] at h
        obtain ⟨k, dd⟩ := p
        rw [findDoc] at h
        split at h
        · injection h with h
          subst h
          exact hp
        · exact ih d h
      · rw [List.filter_cons_of_neg (by simpa using hp)] at h
        exact ih d h

lemma findDoc_eq_none (id : String) :
    ∀ (l : List (String × Document)), (∀ p ∈ l, p.1 ≠ id) →
      findDoc id l = none := by
  intro l
  induction l with
  | nil => intro _; rfl
  | cons p rest ih =>
      intro hall
      obtain ⟨k, dd⟩ := p
      rw [findDoc]
      split
      · next hk =>
          exact absurd hk (hall (k, dd) (List.mem_cons_self _ _))
      · exact ih (fun q hq => hall q (List.mem_cons_of_mem _ hq))

lemma appendBounded_length (maxN : Nat) (h : List ConversationTurn)
    (t : ConversationTurn) : (appendBounded maxN h t).length ≤ maxN := by
  simp only [appendBounded, List.length_drop, List.length_append, List.length_cons,
    List.length_nil]
  omega

lemma runQuestions_invariant (cfg : QAConfig) (qs : List String) :
    ∀ (doc : Document) (embedQ : Option (String → List ℚ)) (ga : Bool)
      (gen : String → String), doc.history.length ≤ cfg.maxHist →
      (runQuestions cfg doc qs embedQ ga gen).history.length ≤ cfg.maxHist ∧
      (runQuestions cfg doc qs embedQ ga gen).id = doc.id ∧
      (runQuestions cfg doc qs embedQ ga gen).rawText = doc.rawText ∧
      (runQuestions cfg doc qs embedQ ga gen).chunks = doc.chunks := by
  induction qs with
  | nil =>
      intro doc embedQ ga gen h0
      exact ⟨h0, rfl, rfl, rfl⟩
  | cons q rest ih =>
      intro doc embedQ ga gen h0
      have hstep : runQuestions cfg doc (q :: rest) embedQ ga gen =
          runQuestions cfg
            (doc.recordTurn cfg.maxHist (composeTurn cfg doc q embedQ ga gen))
            rest embedQ ga gen := rfl
      rw [hstep]
      have := ih (doc.recordTurn cfg.maxHist (composeTurn cfg doc q embedQ ga gen))
        embedQ ga gen (appendBounded_length cfg.maxHist doc.history _)
      exact this

/-- C8: for every input text, concatenating the chunks produced by
`chunk(text, targetSize, overlap)` in order, with each chunk's overlapping
head counted once, reconstructs the original text exactly — full coverage,
no gaps. -/
theorem c8_chunk_coverage (targetSize overlap : Nat) (hov : overlap < targetSize)
    (text : List Char) :
    reassemble overlap (chunk targetSize overlap text) = text := by
  rw [chunk]
  by_cases he : text.isEmpty
  · rw [if_pos he]
    simp [reassemble, List.isEmpty_iff.mp he]
  · rw [if_neg he]
    have h := chunkAux_reassemble targetSize (targetSize - overlap)
      (by omega) (by omega) text
    rwa [show targetSize - (targetSize - overlap) = overlap by omega] at h

/-- Concrete instance of C8: chunking a five-character text with target
size 3 and overlap 1 and reassembling recovers the text. -/
theorem c8_chunk_coverage_witness :
    reassemble 1 (chunk 3 1 ['a', 'b', 'c', 'd', 'e']) = ['a', 'b', 'c', 'd', 'e'] :=
  c8_chunk_coverage 3 1 (by decide) ['a', 'b', 'c', 'd', 'e']

/-- C5: the Embedding Provider's primary path splits the input into batches
no larger than the configured maximum, embeds each batch independently and
concatenates the per-batch results in input order — exactly one vector per
input text, in the same order. -/
theorem c5_batched_embedding (api : String → List ℚ) (maxBatch : Nat)
    (texts : List String) (hn : 0 < maxBatch) :
    embedBatched api maxBatch texts = texts.map api ∧
    (embedBatched api maxBatch texts).length = texts.length ∧
    ∀ b ∈ batched maxBatch texts, b.length ≤ maxBatch := by
  have h1 : embedBatched api maxBatch texts = texts.map api := by
    calc ((batched maxBatch texts).map (fun b => b.map api)).flatten
        = ((batched maxBatch texts).flatten).map api := (List.map_flatten _ _).symm
      _ = texts.map api := by rw [batched_flatten]
  refine ⟨h1, ?_, batched_le maxBatch hn texts⟩
  rw [h1, List.length_map]

/-- Concrete instance of C5: batching three texts with max batch size 2
yields one vector per text in order. -/
theorem c5_batched_embedding_witness :
    embedBatched (fun _ => [0]) 2 ["a", "b", "c"] = ["a", "b", "c"].map (fun _ => [0]) :=
  (c5_batched_embedding (fun _ => [0]) 2 ["a", "b", "c"] (by decide)).1

/-- C7: every vector produced for a session's chunks has the provider's
fixed dimension — whether it came from the remote embedding API (whose
contract fixes the dimension, §6) or from the zero-vector fallback path —
so any two embedded chunks have vectors of the same length. -/
theorem c7_dimension_invariance (api : String → List ℚ) (dim : Nat)
    (apiOk : List String → Bool) (maxBatch : Nat) (texts : List String)
    (hapi : ∀ t, (api t).length = dim) :
    (∀ v ∈ embedWithFallback api dim apiOk maxBatch texts, v.length = dim) ∧
    (∀ v ∈ embedWithFallback api dim apiOk maxBatch texts,
      ∀ w ∈ embedWithFallback api dim apiOk maxBatch texts,
        v.length = w.length) := by
  have hmain : ∀ v ∈ embedWithFallback api dim apiOk maxBatch texts, v.length = dim := by
    intro v hv
    rw [embedWithFallback] at hv
    rcases List.mem_flatten.mp hv with ⟨l, hl, hvl⟩
    rcases List.mem_map.mp hl with ⟨b, hb, rfl⟩
    by_cases hok : apiOk b
    · rw [if_pos hok] at hvl
      rcases List.mem_map.mp hvl with ⟨t, ht, rfl⟩
      exact hapi t
    · rw [if_neg hok] at hvl
      rcases List.mem_map.mp hvl with ⟨t, ht, rfl⟩
      simp [zeroVector]
  exact ⟨hmain, fun v hv w hw => by rw [hmain v hv, hmain w hw]⟩

/-- Concrete instance of C7: with dimension 2, a remote-embedded vector in a
mixed remote/fallback run has length 2. -/
theorem c7_dimension_invariance_witness : ([1, 2] : List ℚ).length = 2 :=
  (c7_dimension_invariance (fun _ => [1, 2]) 2 (fun b => b.contains "x") 1
    ["x", "y"] (fun _ => rfl)).1 [1, 2]
    (by simp [embedWithFallback, batched, zeroVector])

/-- C4: after any sequence of `answer` calls the retained history never
exceeds the configured window: each recorded turn keeps at most `maxHist`
turns, appending to a full window evicts exactly the oldest turn, and the
document itself (id, raw text, chunks) is never removed by the dropping. -/
theorem c4_bounded_history (cfg : QAConfig) (doc : Document) (qs : List String)
    (embedQ : Option (String → List ℚ)) (ga : Bool) (gen : String → String)
    (h0 : doc.history.length ≤ cfg.maxHist) :
    (runQuestions cfg doc qs embedQ ga gen).history.length ≤ cfg.maxHist ∧
    (runQuestions cfg doc qs embedQ ga gen).id = doc.id ∧
    (runQuestions cfg doc qs embedQ ga gen).rawText = doc.rawText ∧
    (runQuestions cfg doc qs embedQ ga gen).chunks = doc.chunks ∧
    (∀ (h : List ConversationTurn) (t : ConversationTurn),
      h.length = cfg.maxHist → 0 < cfg.maxHist →
      appendBounded cfg.maxHist h t = h.tail ++ [t]) ∧
    (∀ (h : List ConversationTurn) (t : ConversationTurn),
      h.length < cfg.maxHist →
      appendBounded cfg.maxHist h t = h ++ [t]) := by
  obtain ⟨h1, h2, h3, h4⟩ := runQuestions_invariant cfg qs doc embedQ ga gen h0
  refine ⟨h1, h2, h3, h4, ?_, ?_⟩
  · intro h t hfull hpos
    rw [appendBounded, hfull]
    rw [show cfg.maxHist + 1 - cfg.maxHist = 1 by omega]
    have hne : 1 ≤ h.length := by omega
    rw [List.drop_append_of_le_length hne, List.drop_one]
  · intro h t hlt
    rw [appendBounded]
    rw [show h.length + 1 - cfg.maxHist = 0 by omega]
    rfl

/-- Concrete instance of C4: two questions against the sample document keep
the history within the 10-turn window. -/
theorem c4_bounded_history_witness :
    (runQuestions sampleCfg sampleDoc ["a", "b"] none false (fun s => s)).history.length
      ≤ sampleCfg.maxHist :=
  (c4_bounded_history sampleCfg sampleDoc ["a", "b"] none false (fun s => s)
    (by decide)).1

/-- C1: Session Document Store eviction is active: no `get` ever returns a
document whose expiry has passed, and a document `put` with a TTL is
reported NotFound (`none`) by a `get` at any time past its expiry. -/
theorem c1_eviction_enforced (st : DocStore) (doc : Document) (id : String)
    (now now0 ttl maxDocs : Nat) :
    (∀ d, (st.get id now).fst = some d → now ≤ d.expiresAt) ∧
    (now0 + ttl < now →
      ((st.put doc now0 ttl maxDocs).get doc.id now).fst = none) := by
  constructor
  · intro d h
    simp only [DocStore.get, DocStore.sweepExpired] at h
    exact findDoc_filter_le now id st.docs d h
  · intro hlt
    simp only [DocStore.get, DocStore.sweepExpired, DocStore.put]
    apply findDoc_eq_none
    intro p hp
    rcases List.mem_filter.mp hp with ⟨hpm, hpk⟩
    have hpm' := List.take_subset _ _ hpm
    rcases List.mem_cons.mp hpm' with hpe | hpf
    · rw [hpe] at hpk
      simp only [decide_eq_true_eq] at hpk
      omega
    · rcases List.mem_filter.mp hpf with ⟨_, hne⟩
      simpa using hne

/-- Concrete instance of C1: a document put with TTL 1 at time 0 is NotFound
when polled at time 10. -/
theorem c1_eviction_enforced_witness :
    (((DocStore.mk []).put sampleDoc 0 1 5).get "doc1" 10).fst = none :=
  (c1_eviction_enforced ⟨[]⟩ sampleDoc "doc1" 10 0 1 5).2 (by decide)

lemma vectorRetrieve_nil (k : Nat) (qv : Option (List ℚ)) :
    vectorRetrieve k qv [] = [] := by
  cases qv <;> simp [vectorRetrieve, sortBy]

lemma lexicalTop_nil (k : Nat) (q : String) : lexicalTop k q [] = [] := by
  simp [lexicalTop, sortBy]

/-- C2: on zero retrieved chunks the composer does not immediately answer
"cannot find": when the document still has chunks the lexical keyword
fallback grounds the answer in the top lexical matches; only a document
with no chunks at all terminates in the "cannot find" response. -/
theorem c2_lexical_fallback (cfg : QAConfig) (doc : Document) (question : String)
    (embedQ : Option (String → List ℚ)) (hk : 0 < cfg.topK) :
    (doc.chunks = [] →
      selectGrounding cfg doc question embedQ = .noGrounding ∧
      ∀ ga gen, composeTurn cfg doc question embedQ ga gen =
        ⟨question, cannotFindMsg, [], false⟩) ∧
    (vectorRetrieve cfg.topK (embedQ.map (fun f => f question)) doc.chunks = [] →
      doc.chunks ≠ [] →
      selectGrounding cfg doc question embedQ =
        .lexical (lexicalTop cfg.topK question doc.chunks) ∧
      lexicalTop cfg.topK question doc.chunks ≠ [] ∧
      ∀ ga gen, (composeTurn cfg doc question embedQ ga gen).sources =
          (lexicalTop cfg.topK question doc.chunks).map (fun c => c.sourceRef) ∧
        (composeTurn cfg doc question embedQ ga gen).sources ≠ []) := by
  constructor
  · intro hchunks
    have hv : vectorRetrieve cfg.topK (embedQ.map (fun f => f question)) doc.chunks = [] := by
      rw [hchunks]; exact vectorRetrieve_nil _ _
    have hlex0 : lexicalTop cfg.topK question doc.chunks = [] := by
      rw [hchunks]; exact lexicalTop_nil _ _
    have hsel : selectGrounding cfg doc question embedQ = .noGrounding := by
      unfold selectGrounding
      rw [hv, hlex0]
    refine ⟨hsel, fun ga gen => ?_⟩
    unfold composeTurn
    rw [hsel]
  · intro hv hne
    rcases hlex : lexicalTop cfg.topK question doc.chunks with _ | ⟨c, cs⟩
    · exact absurd hlex (lexicalTop_ne_nil _ _ _ hne hk)
    · have hsel : selectGrounding cfg doc question embedQ = .lexical (c :: cs) := by
        unfold selectGrounding
        rw [hv, hlex]
      refine ⟨hsel, by simp, fun ga gen => ?_⟩
      unfold composeTurn
      rw [hsel]
      cases ga <;> simp

/-- Concrete instance of C2: with no embeddings configured at all, the
sample document still yields a lexically grounded answer whose sources are
the top lexical matches. -/
theorem c2_lexical_fallback_witness :
    (composeTurn sampleCfg sampleDoc "what is the invoice total" none false
      (fun s => s)).sources =
      (lexicalTop sampleCfg.topK "what is the invoice total" sampleDoc.chunks).map
        (fun c => c.sourceRef) :=
  (((c2_lexical_fallback sampleCfg sampleDoc "what is the invoice total" none
    (by decide)).2 rfl (by decide)).2.2 false (fun s => s)).1

/-- C3: for every successfully generated answer the turn's sources are
exactly the `sourceRef`s of the chunks passed into the grounding prompt —
and they do not depend on the generation model's free-form output at all. -/
theorem c3_sources_from_chunks (cfg : QAConfig) (doc : Document)
    (question : String) (embedQ : Option (String → List ℚ))
    (gen gen' : String → String) :
    ((selectGrounding cfg doc question embedQ).chunks ≠ [] →
      (composeTurn cfg doc question embedQ true gen).sources =
        (selectGrounding cfg doc question embedQ).chunks.map (fun c => c.sourceRef)) ∧
    (composeTurn cfg doc question embedQ true gen).sources =
      (composeTurn cfg doc question embedQ true gen').sources := by
  rcases hsel : selectGrounding cfg doc question embedQ with cs | cs | _
  · unfold composeTurn
    rw [hsel]
    cases cs with
    | nil =>
        exact ⟨fun h => absurd rfl h, rfl⟩
    | cons top rest =>
        refine ⟨fun _ => ?_, ?_⟩ <;> simp [GroundingSel.chunks]
  · unfold composeTurn
    rw [hsel]
    cases cs with
    | nil =>
        exact ⟨fun h => absurd rfl h, rfl⟩
    | cons top rest =>
        refine ⟨fun _ => ?_, ?_⟩ <;> simp [GroundingSel.chunks]
  · unfold composeTurn
    rw [hsel]
    exact ⟨fun h => absurd rfl h, rfl⟩

/-- Concrete instance of C3: a vector-grounded answer's sources equal the
grounding chunks' `sourceRef`s regardless of what the model printed. -/
theorem c3_sources_from_chunks_witness :
    (composeTurn sampleCfg sampleDoc "total" (some (fun _ => [1, 0])) true
      (fun _ => "The total is 500")).sources =
      (selectGrounding sampleCfg sampleDoc "total" (some (fun _ => [1, 0]))).chunks.map
        (fun c => c.sourceRef) :=
  (c3_sources_from_chunks sampleCfg sampleDoc "total" (some (fun _ => [1, 0]))
    (fun _ => "The total is 500") (fun _ => "other")).1 (by decide)

lemma selectGrounding_lexical_inv (cfg : QAConfig) (doc : Document)
    (question : String) (embedQ : Option (String → List ℚ)) (cs : List Chunk)
    (h : selectGrounding cfg doc question embedQ = .lexical cs) :
    vectorRetrieve cfg.topK (embedQ.map (fun f => f question)) doc.chunks = [] ∧
    lexicalTop cfg.topK question doc.chunks = cs := by
  unfold selectGrounding at h
  split at h
  · exact absurd h (by simp)
  · next heq =>
      split at h
      · next c cs' heq2 =>
          refine ⟨heq, ?_⟩
          rw [heq2]
          exact congrArg GroundingSel.chunks h
      · exact absurd h (by simp)

/-- C9: with the generation provider disabled the answer is independent of
the generation model (two runs agree), and is the extractive fallback: the
most relevant chunk's text, `usedFallback = true`, sources carrying the
grounding chunks' `sourceRef`s; on the lexical path the returned top chunk
maximises the lexical score over the document's chunks. -/
theorem c9_fallback_determinism (cfg : QAConfig) (doc : Document)
    (question : String) (embedQ : Option (String → List ℚ))
    (gen₁ gen₂ : String → String) :
    composeTurn cfg doc question embedQ false gen₁ =
      composeTurn cfg doc question embedQ false gen₂ ∧
    (∀ top rest,
      (selectGrounding cfg doc question embedQ = .vector (top :: rest) ∨
       selectGrounding cfg doc question embedQ = .lexical (top :: rest)) →
      (composeTurn cfg doc question embedQ false gen₁).answer = top.text ∧
      (composeTurn cfg doc question embedQ false gen₁).usedFallback = true ∧
      (composeTurn cfg doc question embedQ false gen₁).sources =
        (top :: rest).map (fun c => c.sourceRef)) ∧
    (∀ top rest,
      selectGrounding cfg doc question embedQ = .lexical (top :: rest) →
      ∀ c ∈ doc.chunks, lexScore question c ≤ lexScore question top) := by
  refine ⟨?_, ?_, ?_⟩
  · unfold composeTurn
    rcases hsel : selectGrounding cfg doc question embedQ with cs | cs | _
    · cases cs <;> rfl
    · cases cs <;> rfl
    · rfl
  · intro top rest hsel
    rcases hsel with hsel | hsel <;>
      (unfold composeTurn; rw [hsel]; exact ⟨rfl, rfl, rfl⟩)
  · intro top rest hsel c hc
    have htot : ∀ a b : Chunk,
        decide (lexScore question b ≤ lexScore question a) = true ∨
        decide (lexScore question a ≤ lexScore question b) = true := by
      intro a b
      rcases Nat.le_total (lexScore question b) (lexScore question a) with h | h
      · left; exact decide_eq_true h
      · right; exact decide_eq_true h
    have htrans : ∀ a b c : Chunk,
        decide (lexScore question b ≤ lexScore question a) = true →
        decide (lexScore question c ≤ lexScore question b) = true →
        decide (lexScore question c ≤ lexScore question a) = true := by
      intro a b c h1 h2
      exact decide_eq_true (Nat.le_trans (of_decide_eq_true h2) (of_decide_eq_true h1))
    have hlex := (selectGrounding_lexical_inv cfg doc question embedQ
      (top :: rest) hsel).2
    unfold lexicalTop at hlex
    rcases hs : sortBy (fun a b => decide (lexScore question b ≤ lexScore question a))
        doc.chunks with _ | ⟨hd, tl⟩
    · rw [hs] at hlex
      simp at hlex
    · rw [hs] at hlex
      have hhead : hd = top := by
        cases k0 : cfg.topK with
        | zero =>
            rw [k0] at hlex
            simp at hlex
        | succ n =>
            rw [k0, List.take_succ_cons] at hlex
            exact (List.cons_eq_cons.mp hlex).1
      have hmax := sortBy_head_max _ htot htrans doc.chunks hd tl hs c hc
      rw [hhead] at hmax
      exact of_decide_eq_true hmax

/-- Concrete instance of C9: with generation disabled, asking the sample
document returns the top lexical chunk's text verbatim with the fallback
flag set. -/
theorem c9_fallback_determinism_witness :
    (composeTurn sampleCfg sampleDoc "total" none false (fun _ => "x")).answer =
      sampleChunk.text ∧
    (composeTurn sampleCfg sampleDoc "total" none false (fun _ => "x")).usedFallback =
      true := by
  have h := (c9_fallback_determinism sampleCfg sampleDoc "total" none
    (fun _ => "x") (fun _ => "y")).2.1 sampleChunk [sampleChunk2] (Or.inr (by decide))
  exact ⟨h.1, h.2.1⟩

/-- C6: asking against an unknown documentId yields the distinct NotFound
status; an existing document always yields an answered turn (the
"cannot find" answer included), and the two are never the same result. -/
theorem c6_notfound_distinct (cfg : QAConfig) (st : DocStore)
    (id question : String) (now : Nat) (embedQ : Option (String → List ℚ))
    (ga : Bool) (gen : String → String) :
    ((st.get id now).fst = none →
      (ask cfg st id question now embedQ ga gen).fst = .notFound) ∧
    (∀ d, (st.get id now).fst = some d →
      (ask cfg st id question now embedQ ga gen).fst =
        .answered (composeTurn cfg d question embedQ ga gen)) ∧
    (∀ t : ConversationTurn, (AskResult.answered t) ≠ .notFound) := by
  refine ⟨?_, ?_, fun t h => AskResult.noConfusion h⟩
  · intro h
    simp [ask, h]
  · intro d h
    simp [ask, h]

/-- Concrete instance of C6: asking the stored sample document yields an
answered turn, not NotFound. -/
theorem c6_notfound_distinct_witness :
    (ask sampleCfg sampleStore "doc1" "q" 0 none false (fun s => s)).fst =
      .answered (composeTurn sampleCfg sampleDoc "q" none false (fun s => s)) :=
  (c6_notfound_distinct sampleCfg sampleStore "doc1" "q" 0 none false
    (fun s => s)).2.1 sampleDoc (by decide)

/-- C10: the `ask` entry point accepts every question string — empty or
whitespace-only included — and every documentId without an input-validation
rejection: the result is always NotFound or an answered turn, never an
InputError. -/
theorem c10_no_question_validation (cfg : QAConfig) (st : DocStore)
    (id question : String) (now : Nat) (embedQ : Option (String → List ℚ))
    (ga : Bool) (gen : String → String) :
    (ask cfg st id question now embedQ ga gen).fst ≠ .inputError ∧
    ((ask cfg st id question now embedQ ga gen).fst = .notFound ∨
      ∃ t, (ask cfg st id question now embedQ ga gen).fst = .answered t) := by
  rcases hg : (st.get id now).fst with _ | d
  · constructor
    · simp [ask, hg]
    · left
      simp [ask, hg]
  · constructor
    · simp [ask, hg]
    · right
      exact ⟨composeTurn cfg d question embedQ ga gen, by simp [ask, hg]⟩

/-- Concrete instance of C10: the empty question against the sample store is
accepted (not an InputError). -/
theorem c10_no_question_validation_witness :
    (ask sampleCfg sampleStore "doc1" "" 0 none false (fun s => s)).fst ≠
      .inputError :=
  (c10_no_question_validation sampleCfg sampleStore "doc1" "" 0 none false
    (fun s => s)).1

end DocQA
